import Mathlib

/-!
Shallow embedding of the adaptive JPEG XL transcoding engine of
`src/multimedia/image/convertojpgxl.py`: the quality search loop, the
strategy selection by extension, the fallback chain, the final save
decision, the conflict resolution and the original-retention copy.

External collaborators (the `cjxl` encoder process and the Pillow
decode + re-encode routine `convert_via_pillow`) are modelled as an
oracle assigning to each possible invocation its outcome: `some data`
when the invocation succeeds (exit code 0) with payload `data`, `none`
when it fails (non-zero exit code or a raised exception).  The
filesystem effects on the destination tree are modelled by the two
slots a single processed file can touch: the `.jxl` destination path
and the original-extension destination path used for retention copies.
-/

namespace ConvertToJxl

/-- A byte string, as a list of byte values; only its length and identity
matter to the engine. -/
abbrev Bytes := List Nat

/-- The command-line configuration fields read by `process_file`
(`args.force_jxl`, `args.skip`, `args.overwrite`, `args.compress_lq`,
`args.compress_mq`, `args.compress_hq`). -/
structure Args where
  force_jxl : Bool
  skip : Bool
  overwrite : Bool
  compress_lq : Bool
  compress_mq : Bool
  compress_hq : Bool
deriving DecidableEq, Repr

/-- Outcomes of the external invocations `process_file` can make for one
input file: `lossless` is `cjxl <file> - --lossless_jpeg=1`, `quality q`
is `cjxl <file> - --quality q --lossless_jpeg=0`, and `pillow q` is the
whole `convert_via_pillow(input_file, args, quality=q)` routine (Pillow
decode to PPM piped into `cjxl - - --quality q --lossless_jpeg=0`);
`none` models failure (non-zero exit status or exception).  `promptYes`
is the eventual answer of the interactive overwrite prompt. -/
structure Oracle where
  lossless : Option Bytes
  quality : Nat → Option Bytes
  pillow : Nat → Option Bytes
  promptYes : Bool

/-- One external encoder invocation, with the quality argument it was
given, in the order the source performs them. -/
inductive Call where
  | cjxlLossless : Call
  | cjxlQuality (q : Nat) : Call
  | pillowCall (q : Nat) : Call
deriving DecidableEq, Repr

/-- The IMAGE_EXTS set from the source: the supported raster extensions. -/
def IMAGE_EXTS : List String :=
  [".jpg", ".jpeg", ".png", ".bmp", ".webp", ".tiff", ".tif",
   ".heic", ".heif", ".jfif", ".pjpeg", ".pjp"]

/-- The JPEG-family extension set the source tests the lowercased
suffix against (jpg, jpeg, jfif, pjpeg, pjp). -/
def jpegExts : List String := [".jpg", ".jpeg", ".jfif", ".pjpeg", ".pjp"]

/-- The HEIC-family extension set the source tests the lowercased
suffix against (heic, heif). -/
def heicExts : List String := [".heic", ".heif"]

/-- The minimum allowed quality, from the `match (args.compress_lq,
args.compress_mq, args.compress_hq)` statement: the first flag that is
set wins, default 90. -/
def min_quality (a : Args) : Nat :=
  if a.compress_lq then 75
  else if a.compress_mq then 80
  else if a.compress_hq then 85
  else 90

/-- The primary strategy section of the loop body (the `try:` block of
`process_file`): HEIC goes straight to `convert_via_pillow`; JPEG at
quality 90 tries the lossless transcode and falls back to the quality
re-encode; JPEG below 90 and every other extension run the direct
quality re-encode.  Returns the payload (or `none` when the block would
raise) and the invocations performed, in order. -/
def primary_attempt (o : Oracle) (is_heic is_jpeg : Bool) (q : Nat) :
    Option Bytes × List Call :=
  if is_heic then
    (o.pillow q, [Call.pillowCall q])
  else if is_jpeg then
    if q = 90 then
      match o.lossless with
      | some d => (some d, [Call.cjxlLossless])
      | none => (o.quality q, [Call.cjxlLossless, Call.cjxlQuality q])
    else
      (o.quality q, [Call.cjxlQuality q])
  else
    (o.quality q, [Call.cjxlQuality q])

/-- One full loop-body attempt: the primary strategies, and on their
failure the universal Pillow fallback (the `except` block) at the same
quality.  A `none` payload means the fallback failed too, the hard
failure path. -/
def attempt_body (o : Oracle) (is_heic is_jpeg : Bool) (q : Nat) :
    Option Bytes × List Call :=
  match primary_attempt o is_heic is_jpeg q with
  | (some d, cs) => (some d, cs)
  | (none, cs) => (o.pillow q, cs ++ [Call.pillowCall q])

/-- The record of one iteration of the quality search loop: the quality
it ran at, the external invocations it made, and the payload it ended
with (`none` on the hard-failure path). -/
structure Iter where
  quality : Nat
  calls : List Call
  payload : Option Bytes
deriving DecidableEq, Repr

/-- How the quality search loop ended: `found data q` models a `break`
with `final_jxl_data = data` at quality `q`; `hardFail` models the early
`return` from the `except` block; `outOfFuel` means the given iteration
budget was exhausted with the loop still running. -/
inductive LoopOut where
  | found (data : Bytes) (q : Nat) : LoopOut
  | hardFail : LoopOut
  | outOfFuel : LoopOut
deriving DecidableEq, Repr

/-- The while-True quality search loop of `process_file`, with an
explicit iteration budget `fuel` (the source has no budget; `outOfFuel`
makes a run that exceeds the budget observable).  Each iteration runs
`attempt_body`; on hard failure it stops; otherwise the source guards
the size check with the truthiness test `if jxl_data:`, so an empty
payload skips the whole size check and the loop repeats at the same
quality.  A nonempty payload smaller than `src_size` is accepted;
otherwise the quality is lowered by 5 while it exceeds `min_q`, and at
(or below) the floor the payload is accepted anyway. -/
def search_loop (o : Oracle) (is_heic is_jpeg : Bool) (src_size min_q : Nat) :
    Nat → Nat → List Iter × LoopOut
  | 0, _ => ([], LoopOut.outOfFuel)
  | fuel + 1, q =>
    match attempt_body o is_heic is_jpeg q with
    | (none, cs) => ([⟨q, cs, none⟩], LoopOut.hardFail)
    | (some data, cs) =>
      if data ≠ [] then
        if data.length < src_size then
          ([⟨q, cs, some data⟩], LoopOut.found data q)
        else if min_q < q then
          let r := search_loop o is_heic is_jpeg src_size min_q fuel (q - 5)
          (⟨q, cs, some data⟩ :: r.1, r.2)
        else
          ([⟨q, cs, some data⟩], LoopOut.found data q)
      else
        let r := search_loop o is_heic is_jpeg src_size min_q fuel q
        (⟨q, cs, some data⟩ :: r.1, r.2)

/-- The destination-tree slots one processed file can touch: the `.jxl`
output path and the original-extension path used for retention copies.
`none` means the path does not exist. -/
structure FS where
  outJxl : Option Bytes
  outOrig : Option Bytes
deriving DecidableEq, Repr

/-- The console messages the engine prints, in order. -/
inductive Ev where
  | copyMsg : Ev
  | skipMsg : Ev
  | okMsg : Ev
  | forcedMsg : Ev
  | errorMsg : Ev
deriving DecidableEq, Repr

/-- The routine `copy_original`: retains the original at the destination tree.  It
writes the source bytes only when the destination path does not exist,
and always prints the `[COPY]` line. -/
def copy_original (fs : FS) (src_bytes : Bytes) : FS × List Ev :=
  (if fs.outOrig.isSome then fs else { fs with outOrig := some src_bytes },
   [Ev.copyMsg])

/-- The terminal state reached for one processed file. -/
inductive Decision where
  | skip : Decision
  | ok : Decision
  | forced : Decision
  | retained : Decision
  | failed : Decision
  | noFinal : Decision
  | diverged : Decision
deriving DecidableEq, Repr

/-- Everything observable about one `process_file` run: the terminal
state, the destination-tree slots afterwards, the encoder invocations,
whether `copy_metadata` was triggered, the loop iteration trace and the
printed messages. -/
structure PResult where
  decision : Decision
  fs : FS
  calls : List Call
  metaCopied : Bool
  trace : List Iter
  events : List Ev
deriving DecidableEq, Repr

/-- The body of `process_file` past the conflict-resolution section:
the quality search loop starting at quality 90 followed by the final
save decision.  `diverged` and `noFinal` are artifacts of the budget
and of the `if final_jxl_data:` truthiness guard. -/
def process_body (o : Oracle) (a : Args) (ext : String) (src_bytes : Bytes)
    (fs : FS) (fuel : Nat) : PResult :=
  let src_size := src_bytes.length
  let is_jpeg := jpegExts.contains ext
  let is_heic := heicExts.contains ext
  let r := search_loop o is_heic is_jpeg src_size (min_quality a) fuel 90
  let calls := (r.1.map Iter.calls).flatten
  match r.2 with
  | LoopOut.outOfFuel => ⟨Decision.diverged, fs, calls, false, r.1, []⟩
  | LoopOut.hardFail =>
    if a.force_jxl then
      ⟨Decision.failed, fs, calls, false, r.1, [Ev.errorMsg]⟩
    else
      let c := copy_original fs src_bytes
      ⟨Decision.failed, c.1, calls, false, r.1, Ev.errorMsg :: c.2⟩
  | LoopOut.found data _ =>
    if data ≠ [] then
      if data.length < src_size ∨ a.force_jxl then
        let fs' := { fs with outJxl := some data }
        if src_size ≤ data.length then
          ⟨Decision.forced, fs', calls, true, r.1, [Ev.forcedMsg]⟩
        else
          ⟨Decision.ok, fs', calls, true, r.1, [Ev.okMsg]⟩
      else
        let c := copy_original fs src_bytes
        ⟨Decision.retained, c.1, calls, false, r.1, c.2⟩
    else
      ⟨Decision.noFinal, fs, calls, false, r.1, []⟩

/-- The function `process_file`: the conflict-resolution section (skip, overwrite or
prompt on an existing `.jxl` destination) gating `process_body`. -/
def process_file (o : Oracle) (a : Args) (ext : String) (src_bytes : Bytes)
    (fs : FS) (fuel : Nat) : PResult :=
  if fs.outJxl.isSome then
    if a.skip then
      ⟨Decision.skip, fs, [], false, [], [Ev.skipMsg]⟩
    else if a.overwrite then
      process_body o a ext src_bytes fs fuel
    else if o.promptYes then
      process_body o a ext src_bytes fs fuel
    else
      ⟨Decision.skip, fs, [], false, [], [Ev.skipMsg]⟩
  else
    process_body o a ext src_bytes fs fuel

/-- The attempt strategies named by the specification's Strategy
Selector. -/
inductive Strategy where
  | losslessTranscode : Strategy
  | qualityReencode : Strategy
  | fallbackDecodeEncode : Strategy
deriving DecidableEq, Repr

/-- The extension classes distinguished by the specification. -/
inductive ExtClass where
  | heic : ExtClass
  | jpeg : ExtClass
  | other : ExtClass
deriving DecidableEq, Repr

/-- Classification of a normalized lowercase extension. -/
def classOf (ext : String) : ExtClass :=
  if heicExts.contains ext then ExtClass.heic
  else if jpegExts.contains ext then ExtClass.jpeg
  else ExtClass.other

/-- Modelled from the spec (section 4.1 Strategy Selector): the ordered
attempt list the specification assigns to each extension class and
quality level, for comparison with the source's `primary_attempt`. -/
def strategySpecSelector (c : ExtClass) (q : Nat) : List Strategy :=
  match c with
  | ExtClass.heic => [Strategy.fallbackDecodeEncode]
  | ExtClass.jpeg =>
    if q = 90 then [Strategy.losslessTranscode, Strategy.qualityReencode]
    else [Strategy.qualityReencode]
  | ExtClass.other => [Strategy.qualityReencode]

/-- The single invocation a strategy performs at quality `q`. -/
def run_strategy (o : Oracle) (q : Nat) : Strategy → Option Bytes
  | Strategy.losslessTranscode => o.lossless
  | Strategy.qualityReencode => o.quality q
  | Strategy.fallbackDecodeEncode => o.pillow q

/-- The invocation record of a strategy at quality `q`. -/
def strategy_call (q : Nat) : Strategy → Call
  | Strategy.losslessTranscode => Call.cjxlLossless
  | Strategy.qualityReencode => Call.cjxlQuality q
  | Strategy.fallbackDecodeEncode => Call.pillowCall q

/-- Running an ordered strategy list: each strategy is invoked in turn
until one succeeds; the invocations made are recorded in order. -/
def run_strategies (o : Oracle) (q : Nat) : List Strategy → Option Bytes × List Call
  | [] => (none, [])
  | s :: rest =>
    match run_strategy o q s with
    | some d => (some d, [strategy_call q s])
    | none =>
      let r := run_strategies o q rest
      (r.1, strategy_call q s :: r.2)

/-! ### Loop lemmas -/

theorem search_loop_zero (o : Oracle) (ih ij : Bool) (s m q : Nat) :
    search_loop o ih ij s m 0 q = ([], LoopOut.outOfFuel) := rfl

theorem search_loop_succ_none (o : Oracle) (ih ij : Bool) (s m fuel q : Nat)
    (cs : List Call) (h : attempt_body o ih ij q = (none, cs)) :
    search_loop o ih ij s m (fuel + 1) q = ([⟨q, cs, none⟩], LoopOut.hardFail) := by
  unfold search_loop
  rw [h]

theorem search_loop_succ_some (o : Oracle) (ih ij : Bool) (s m fuel q : Nat)
    (d : Bytes) (cs : List Call) (h : attempt_body o ih ij q = (some d, cs)) :
    search_loop o ih ij s m (fuel + 1) q =
      if d ≠ [] then
        if d.length < s then
          ([⟨q, cs, some d⟩], LoopOut.found d q)
        else if m < q then
          (⟨q, cs, some d⟩ :: (search_loop o ih ij s m fuel (q - 5)).1,
           (search_loop o ih ij s m fuel (q - 5)).2)
        else
          ([⟨q, cs, some d⟩], LoopOut.found d q)
      else
        (⟨q, cs, some d⟩ :: (search_loop o ih ij s m fuel q).1,
         (search_loop o ih ij s m fuel q).2) := by
  conv_lhs => unfold search_loop
  rw [h]

theorem search_loop_found_ne (o : Oracle) (ih ij : Bool) (s m : Nat)
    (d : Bytes) (qf : Nat) :
    ∀ fuel q, (search_loop o ih ij s m fuel q).2 = LoopOut.found d qf → d ≠ [] := by
  intro fuel
  induction fuel with
  | zero => intro q h; simp [search_loop_zero] at h
  | succ n IHn =>
    intro q h
    rcases hab : attempt_body o ih ij q with ⟨p, cs⟩
    cases p with
    | none => rw [search_loop_succ_none o ih ij s m n q cs hab] at h; simp at h
    | some data =>
      rw [search_loop_succ_some o ih ij s m n q data cs hab] at h
      by_cases hd : data ≠ []
      · rw [if_pos hd] at h
        by_cases hlt : data.length < s
        · rw [if_pos hlt] at h
          exact (LoopOut.found.inj h).1 ▸ hd
        · rw [if_neg hlt] at h
          by_cases hq : m < q
          · rw [if_pos hq] at h
            exact IHn (q - 5) h
          · rw [if_neg hq] at h
            exact (LoopOut.found.inj h).1 ▸ hd
      · rw [if_neg hd] at h
        exact IHn q h

theorem search_loop_found_last (o : Oracle) (ih ij : Bool) (s m : Nat)
    (d : Bytes) (qf : Nat) :
    ∀ fuel q, (search_loop o ih ij s m fuel q).2 = LoopOut.found d qf →
      ∃ pre cs, (search_loop o ih ij s m fuel q).1 = pre ++ [⟨qf, cs, some d⟩] := by
  intro fuel
  induction fuel with
  | zero => intro q h; simp [search_loop_zero] at h
  | succ n IHn =>
    intro q h
    rcases hab : attempt_body o ih ij q with ⟨p, cs⟩
    cases p with
    | none =>
      rw [search_loop_succ_none o ih ij s m n q cs hab] at h
      simp at h
    | some data =>
      rw [search_loop_succ_some o ih ij s m n q data cs hab] at h ⊢
      by_cases hd : data ≠ []
      · rw [if_pos hd] at h ⊢
        by_cases hlt : data.length < s
        · rw [if_pos hlt] at h ⊢
          obtain ⟨h1, h2⟩ := LoopOut.found.inj h
          exact ⟨[], cs, by simp [h1, h2]⟩
        · rw [if_neg hlt] at h ⊢
          by_cases hq : m < q
          · rw [if_pos hq] at h ⊢
            obtain ⟨pre, cs2, hpre⟩ := IHn (q - 5) h
            exact ⟨⟨q, cs, some data⟩ :: pre, cs2,
              by rw [show ((⟨q, cs, some data⟩ : Iter) :: pre) ++ [(⟨qf, cs2, some d⟩ : Iter)]
                  = ⟨q, cs, some data⟩ :: (pre ++ [(⟨qf, cs2, some d⟩ : Iter)]) from
                    List.cons_append _ _ _, hpre]⟩
          · rw [if_neg hq] at h ⊢
            obtain ⟨h1, h2⟩ := LoopOut.found.inj h
            exact ⟨[], cs, by simp [h1, h2]⟩
      · rw [if_neg hd] at h ⊢
        obtain ⟨pre, cs2, hpre⟩ := IHn q h
        exact ⟨⟨q, cs, some data⟩ :: pre, cs2,
          by rw [show ((⟨q, cs, some data⟩ : Iter) :: pre) ++ [(⟨qf, cs2, some d⟩ : Iter)]
              = ⟨q, cs, some data⟩ :: (pre ++ [(⟨qf, cs2, some d⟩ : Iter)]) from
                List.cons_append _ _ _, hpre]⟩

theorem search_loop_hardFail_last (o : Oracle) (ih ij : Bool) (s m : Nat) :
    ∀ fuel q, (search_loop o ih ij s m fuel q).2 = LoopOut.hardFail →
      ∃ pre qf cs, (search_loop o ih ij s m fuel q).1 = pre ++ [⟨qf, cs, none⟩] ∧
        ∀ it ∈ pre, it.payload ≠ none := by
  intro fuel
  induction fuel with
  | zero => intro q h; simp [search_loop_zero] at h
  | succ n IHn =>
    intro q h
    rcases hab : attempt_body o ih ij q with ⟨p, cs⟩
    cases p with
    | none =>
      rw [search_loop_succ_none o ih ij s m n q cs hab] at h ⊢
      exact ⟨[], q, cs, rfl, by simp⟩
    | some data =>
      rw [search_loop_succ_some o ih ij s m n q data cs hab] at h ⊢
      by_cases hd : data ≠ []
      · rw [if_pos hd] at h ⊢
        by_cases hlt : data.length < s
        · rw [if_pos hlt] at h
          exact absurd h (by simp)
        · rw [if_neg hlt] at h ⊢
          by_cases hq : m < q
          · rw [if_pos hq] at h ⊢
            obtain ⟨pre, qf, cs2, hpre, hall⟩ := IHn (q - 5) h
            refine ⟨⟨q, cs, some data⟩ :: pre, qf, cs2,
              by rw [show ((⟨q, cs, some data⟩ : Iter) :: pre) ++ [(⟨qf, cs2, none⟩ : Iter)]
                  = ⟨q, cs, some data⟩ :: (pre ++ [(⟨qf, cs2, none⟩ : Iter)]) from
                    List.cons_append _ _ _, hpre], ?_⟩
            intro it hit
            rcases List.mem_cons.mp hit with h1 | h1
            · rw [h1]; simp
            · exact hall it h1
          · rw [if_neg hq] at h
            exact absurd h (by simp)
      · rw [if_neg hd] at h ⊢
        obtain ⟨pre, qf, cs2, hpre, hall⟩ := IHn q h
        refine ⟨⟨q, cs, some data⟩ :: pre, qf, cs2,
          by rw [show ((⟨q, cs, some data⟩ : Iter) :: pre) ++ [(⟨qf, cs2, none⟩ : Iter)]
              = ⟨q, cs, some data⟩ :: (pre ++ [(⟨qf, cs2, none⟩ : Iter)]) from
                List.cons_append _ _ _, hpre], ?_⟩
        intro it hit
        rcases List.mem_cons.mp hit with h1 | h1
        · rw [h1]; simp
        · exact hall it h1

theorem search_loop_inv (o : Oracle) (ih ij : Bool) (s m : Nat) (h5m : m % 5 = 0) :
    ∀ fuel q, q % 5 = 0 → m ≤ q →
      (∀ it ∈ (search_loop o ih ij s m fuel q).1,
        it.quality % 5 = 0 ∧ m ≤ it.quality ∧ it.quality ≤ q) ∧
      List.Chain' (fun x y : Iter => y.quality ≤ x.quality)
        (search_loop o ih ij s m fuel q).1 := by
  intro fuel
  induction fuel with
  | zero => intro q h5q hmq; simp [search_loop_zero]
  | succ n IHn =>
    intro q h5q hmq
    rcases hab : attempt_body o ih ij q with ⟨p, cs⟩
    cases p with
    | none =>
      rw [search_loop_succ_none o ih ij s m n q cs hab]
      refine ⟨?_, by simp⟩
      intro it hit
      rw [List.mem_singleton.mp hit]
      exact ⟨h5q, hmq, le_refl q⟩
    | some data =>
      rw [search_loop_succ_some o ih ij s m n q data cs hab]
      by_cases hd : data ≠ []
      · rw [if_pos hd]
        by_cases hlt : data.length < s
        · rw [if_pos hlt]
          refine ⟨?_, by simp⟩
          intro it hit
          rw [List.mem_singleton.mp hit]
          exact ⟨h5q, hmq, le_refl q⟩
        · rw [if_neg hlt]
          by_cases hq : m < q
          · rw [if_pos hq]
            have h5q5 : (q - 5) % 5 = 0 := by omega
            have hmq5 : m ≤ q - 5 := by omega
            obtain ⟨hall, hchain⟩ := IHn (q - 5) h5q5 hmq5
            constructor
            · intro it hit
              rcases List.mem_cons.mp hit with h1 | h1
              · rw [h1]; exact ⟨h5q, hmq, le_refl q⟩
              · obtain ⟨a1, a2, a3⟩ := hall it h1
                exact ⟨a1, a2, by omega⟩
            · rw [List.chain'_cons']
              refine ⟨?_, hchain⟩
              intro y hy
              have hmem : y ∈ (search_loop o ih ij s m n (q - 5)).1 :=
                List.mem_of_mem_head? hy
              have h3 := (hall y hmem).2.2
              show y.quality ≤ q
              omega
          · rw [if_neg hq]
            refine ⟨?_, by simp⟩
            intro it hit
            rw [List.mem_singleton.mp hit]
            exact ⟨h5q, hmq, le_refl q⟩
      · rw [if_neg hd]
        obtain ⟨hall, hchain⟩ := IHn q h5q hmq
        constructor
        · intro it hit
          rcases List.mem_cons.mp hit with h1 | h1
          · rw [h1]; exact ⟨h5q, hmq, le_refl q⟩
          · exact hall it h1
        · rw [List.chain'_cons']
          refine ⟨?_, hchain⟩
          intro y hy
          have hmem : y ∈ (search_loop o ih ij s m n q).1 :=
            List.mem_of_mem_head? hy
          have h3 := (hall y hmem).2.2
          show y.quality ≤ q
          omega

/-- An oracle is payload-nonempty when every successful external encode
invocation returns at least one byte (as every real JPEG XL bitstream
does). -/
def NEOracle (o : Oracle) : Prop :=
  (∀ d, o.lossless = some d → d ≠ []) ∧
  (∀ q d, o.quality q = some d → d ≠ []) ∧
  (∀ q d, o.pillow q = some d → d ≠ [])

theorem primary_attempt_ne (o : Oracle) (ih ij : Bool) (q : Nat) (hne : NEOracle o)
    (d : Bytes) (cs : List Call)
    (h : primary_attempt o ih ij q = (some d, cs)) : d ≠ [] := by
  obtain ⟨h1, h2, h3⟩ := hne
  unfold primary_attempt at h
  by_cases hih : ih = true
  · rw [if_pos hih] at h
    exact h3 q d (Prod.mk.inj h).1
  · rw [if_neg hih] at h
    by_cases hij : ij = true
    · rw [if_pos hij] at h
      by_cases h90 : q = 90
      · rw [if_pos h90] at h
        rcases hl : o.lossless with _ | dl
        · rw [hl] at h
          exact h2 q d (Prod.mk.inj h).1
        · rw [hl] at h
          have hd : some dl = some d := (Prod.mk.inj h).1
          exact (Option.some.inj hd) ▸ h1 dl hl
      · rw [if_neg h90] at h
        exact h2 q d (Prod.mk.inj h).1
    · rw [if_neg hij] at h
      exact h2 q d (Prod.mk.inj h).1

theorem attempt_body_ne (o : Oracle) (ih ij : Bool) (q : Nat) (hne : NEOracle o)
    (d : Bytes) (h : (attempt_body o ih ij q).1 = some d) : d ≠ [] := by
  unfold attempt_body at h
  rcases hp : primary_attempt o ih ij q with ⟨pp, cs⟩
  cases pp with
  | some dp =>
    rw [hp] at h
    have : dp = d := Option.some.inj h
    exact this ▸ primary_attempt_ne o ih ij q hne dp cs hp
  | none =>
    rw [hp] at h
    exact hne.2.2 q d h

theorem search_loop_bound (o : Oracle) (ih ij : Bool) (s m : Nat)
    (hne : NEOracle o) (h5m : m % 5 = 0) :
    ∀ fuel q, q % 5 = 0 → m ≤ q → (q - m) / 5 + 1 ≤ fuel →
      (search_loop o ih ij s m fuel q).2 ≠ LoopOut.outOfFuel ∧
      (search_loop o ih ij s m fuel q).1.length ≤ (q - m) / 5 + 1 := by
  intro fuel
  induction fuel with
  | zero => intro q _ _ hf; exact absurd hf (by omega)
  | succ n IHn =>
    intro q h5q hmq hf
    rcases hab : attempt_body o ih ij q with ⟨p, cs⟩
    cases p with
    | none =>
      rw [search_loop_succ_none o ih ij s m n q cs hab]
      exact ⟨by simp, by simp⟩
    | some data =>
      have hd : data ≠ [] := attempt_body_ne o ih ij q hne data (by rw [hab])
      rw [search_loop_succ_some o ih ij s m n q data cs hab, if_pos hd]
      by_cases hlt : data.length < s
      · rw [if_pos hlt]
        exact ⟨by simp, by simp⟩
      · rw [if_neg hlt]
        by_cases hq : m < q
        · rw [if_pos hq]
          have h5q5 : (q - 5) % 5 = 0 := by omega
          have hmq5 : m ≤ q - 5 := by omega
          have hf5 : (q - 5 - m) / 5 + 1 ≤ n := by omega
          obtain ⟨b1, b2⟩ := IHn (q - 5) h5q5 hmq5 hf5
          refine ⟨b1, ?_⟩
          simp only [List.length_cons]
          omega
        · rw [if_neg hq]
          exact ⟨by simp, by simp⟩

theorem min_quality_cases (a : Args) :
    min_quality a = 75 ∨ min_quality a = 80 ∨ min_quality a = 85 ∨
      min_quality a = 90 := by
  unfold min_quality
  split_ifs <;> simp

theorem min_quality_mod (a : Args) : min_quality a % 5 = 0 := by
  rcases min_quality_cases a with h | h | h | h <;> rw [h]

theorem min_quality_le (a : Args) : min_quality a ≤ 90 := by
  rcases min_quality_cases a with h | h | h | h <;> omega

theorem process_body_trace (o : Oracle) (a : Args) (ext : String)
    (src_bytes : Bytes) (fs : FS) (fuel : Nat) :
    (process_body o a ext src_bytes fs fuel).trace =
      (search_loop o (heicExts.contains ext) (jpegExts.contains ext)
        src_bytes.length (min_quality a) fuel 90).1 := by
  simp only [process_body]
  cases hr : (search_loop o (heicExts.contains ext) (jpegExts.contains ext)
      src_bytes.length (min_quality a) fuel 90).2 with
  | found data qf => dsimp only; split_ifs <;> rfl
  | hardFail => dsimp only; split_ifs <;> rfl
  | outOfFuel => rfl

theorem process_file_trace (o : Oracle) (a : Args) (ext : String)
    (src_bytes : Bytes) (fs : FS) (fuel : Nat) :
    (process_file o a ext src_bytes fs fuel).trace = [] ∨
    (process_file o a ext src_bytes fs fuel).trace =
      (search_loop o (heicExts.contains ext) (jpegExts.contains ext)
        src_bytes.length (min_quality a) fuel 90).1 := by
  unfold process_file
  split_ifs <;>
    first
      | exact Or.inl rfl
      | exact Or.inr (process_body_trace o a ext src_bytes fs fuel)

/-! ### Claim theorems -/

/-- C2: for every processed file and every iteration of the quality
search loop, the quality used for the encode attempt is a multiple of 5,
lies within the interval from the configured floor (75, 80, 85 or 90
according to the compression flags) up to 90, and is monotonically
non-increasing across successive attempts for that file. -/
theorem c2_quality_invariants (o : Oracle) (a : Args) (ext : String)
    (src_bytes : Bytes) (fs : FS) (fuel : Nat) :
    (min_quality a = 75 ∨ min_quality a = 80 ∨ min_quality a = 85 ∨
      min_quality a = 90) ∧
    (∀ it ∈ (process_file o a ext src_bytes fs fuel).trace,
      it.quality % 5 = 0 ∧ min_quality a ≤ it.quality ∧ it.quality ≤ 90) ∧
    List.Chain' (fun x y : Iter => y.quality ≤ x.quality)
      (process_file o a ext src_bytes fs fuel).trace := by
  have hinv := search_loop_inv o (heicExts.contains ext) (jpegExts.contains ext)
    src_bytes.length (min_quality a) (min_quality_mod a) fuel 90 (by norm_num)
    (min_quality_le a)
  refine ⟨min_quality_cases a, ?_, ?_⟩
  · rcases process_file_trace o a ext src_bytes fs fuel with h | h
    · rw [h]; intro it hit; simp at hit
    · rw [h]; exact hinv.1
  · rcases process_file_trace o a ext src_bytes fs fuel with h | h
    · rw [h]; simp
    · rw [h]; exact hinv.2

/-- The default configuration: no force, no conflict flags, no
compression flags (floor 90). -/
def argsDefault : Args := ⟨false, false, false, false, false, false⟩

/-- Configuration with the AlwaysSkip conflict policy. -/
def argsSkip : Args := ⟨false, true, false, false, false, false⟩

/-- Configuration with `--force-jxl` set. -/
def argsForce : Args := ⟨true, false, false, false, false, false⟩

/-- An oracle whose every invocation succeeds with an empty payload. -/
def oEmptyPayload : Oracle := ⟨some [], fun _ => some [], fun _ => some [], true⟩

/-- An oracle whose quality re-encode always yields a 3-byte payload and
whose other invocations fail. -/
def oSmallQuality : Oracle := ⟨none, fun _ => some [1, 2, 3], fun _ => none, true⟩

/-- An oracle whose quality re-encode always yields a 2-byte payload and
whose other invocations fail. -/
def oBigQuality : Oracle := ⟨none, fun _ => some [9, 9], fun _ => none, true⟩

/-- An oracle whose every invocation fails. -/
def oAllFail : Oracle := ⟨none, fun _ => none, fun _ => none, true⟩

/-- C1: an iteration of the quality search loop that produces an encoded
payload (a truthy `jxl_data`, i.e. a nonempty byte string): when the
payload is strictly smaller than the source size the attempt is accepted
as final and the loop breaks; otherwise, when the current quality is
strictly above the configured floor, the quality decreases by exactly 5
and the loop repeats; otherwise the attempt is accepted as final anyway
and the loop breaks. -/
theorem c1_size_check_step (o : Oracle) (ih ij : Bool) (s m fuel q : Nat)
    (d : Bytes) (cs : List Call)
    (h : attempt_body o ih ij q = (some d, cs)) (hne : d ≠ []) :
    search_loop o ih ij s m (fuel + 1) q =
      if d.length < s then
        ([⟨q, cs, some d⟩], LoopOut.found d q)
      else if m < q then
        (⟨q, cs, some d⟩ :: (search_loop o ih ij s m fuel (q - 5)).1,
         (search_loop o ih ij s m fuel (q - 5)).2)
      else
        ([⟨q, cs, some d⟩], LoopOut.found d q) := by
  rw [search_loop_succ_some o ih ij s m fuel q d cs h, if_pos hne]

/-- Witness for C1 at a concrete input: a 3-byte encode of a 10-byte
source at quality 90 with floor 90 is accepted immediately. -/
theorem c1_size_check_step_witness :
    search_loop oSmallQuality false false 10 90 (0 + 1) 90 =
      if ([1, 2, 3] : Bytes).length < 10 then
        ([⟨90, [Call.cjxlQuality 90], some [1, 2, 3]⟩], LoopOut.found [1, 2, 3] 90)
      else if 90 < 90 then
        (⟨90, [Call.cjxlQuality 90], some [1, 2, 3]⟩ ::
          (search_loop oSmallQuality false false 10 90 0 (90 - 5)).1,
         (search_loop oSmallQuality false false 10 90 0 (90 - 5)).2)
      else
        ([⟨90, [Call.cjxlQuality 90], some [1, 2, 3]⟩], LoopOut.found [1, 2, 3] 90) :=
  c1_size_check_step oSmallQuality false false 10 90 0 90 [1, 2, 3]
    [Call.cjxlQuality 90] rfl (by decide)

/-- C3 (counterexample): with the default floor 90 the claim allows at
most (90 - 90)/5 + 1 = 1 iteration, yet when every encode succeeds with
an empty payload the `if jxl_data:` truthiness guard skips the size
check and the loop repeats forever at quality 90: after a budget of 5
iterations it has run 5 times and is still running, and the file never
reaches an outcome. -/
theorem c3_counterexample :
    min_quality argsDefault = 90 ∧
    (search_loop oEmptyPayload false false 1 (min_quality argsDefault) 5 90).1.length = 5 ∧
    (search_loop oEmptyPayload false false 1 (min_quality argsDefault) 5 90).2 =
      LoopOut.outOfFuel ∧
    (process_file oEmptyPayload argsDefault ".png" [0] ⟨none, none⟩ 5).decision =
      Decision.diverged :=
  ⟨rfl, rfl, rfl, rfl⟩

/-- C3 (amended): provided every successful encode invocation returns a
nonempty payload, the quality search loop terminates (it does not
exhaust a budget of (90 - qualityFloor)/5 + 1 iterations), runs at most
(90 - qualityFloor)/5 + 1 iterations, and no encode attempt is ever made
at a quality level strictly below the configured floor. -/
theorem c3_loop_bounded (o : Oracle) (a : Args) (ih ij : Bool) (s fuel : Nat)
    (hne : NEOracle o) (hf : (90 - min_quality a) / 5 + 1 ≤ fuel) :
    (search_loop o ih ij s (min_quality a) fuel 90).2 ≠ LoopOut.outOfFuel ∧
    (search_loop o ih ij s (min_quality a) fuel 90).1.length ≤
      (90 - min_quality a) / 5 + 1 ∧
    ∀ it ∈ (search_loop o ih ij s (min_quality a) fuel 90).1,
      min_quality a ≤ it.quality := by
  obtain ⟨b1, b2⟩ := search_loop_bound o ih ij s (min_quality a) hne
    (min_quality_mod a) fuel 90 (by norm_num) (min_quality_le a) hf
  refine ⟨b1, b2, ?_⟩
  intro it hit
  exact ((search_loop_inv o ih ij s (min_quality a) (min_quality_mod a) fuel 90
    (by norm_num) (min_quality_le a)).1 it hit).2.1

theorem oBigQuality_ne : NEOracle oBigQuality := by
  refine ⟨?_, ?_, ?_⟩
  · intro d h
    exact Option.noConfusion h
  · intro q d h
    have h2 : ([9, 9] : Bytes) = d := Option.some.inj h
    rw [← h2]
    decide
  · intro q d h
    exact Option.noConfusion h

/-- Witness for the amended C3 at a concrete input: floor 90, a 1-byte
source, a single iteration budget. -/
theorem c3_loop_bounded_witness :
    (search_loop oBigQuality false false 1 (min_quality argsDefault) 1 90).2 ≠
      LoopOut.outOfFuel ∧
    (search_loop oBigQuality false false 1 (min_quality argsDefault) 1 90).1.length ≤
      (90 - min_quality argsDefault) / 5 + 1 ∧
    ∀ it ∈ (search_loop oBigQuality false false 1 (min_quality argsDefault) 1 90).1,
      min_quality argsDefault ≤ it.quality :=
  c3_loop_bounded oBigQuality argsDefault false false 1 1 oBigQuality_ne (by decide)

/-- C4: the primary strategy selection is a pure function of the
normalized lowercase extension and the current quality level, and agrees
with the specification's selector: HEIC/HEIF get only the fallback
decode + re-encode; JPEG-family extensions at quality 90 get the ordered
pair lossless transcode then quality re-encode, and at lower quality
only the quality re-encode; every other supported raster extension gets
only the direct quality re-encode. -/
theorem run_strategies_fallback (o : Oracle) (q : Nat) :
    run_strategies o q [Strategy.fallbackDecodeEncode] =
      (o.pillow q, [Call.pillowCall q]) := by
  cases hp : o.pillow q <;>
    simp [run_strategies, run_strategy, strategy_call, hp]

theorem run_strategies_quality (o : Oracle) (q : Nat) :
    run_strategies o q [Strategy.qualityReencode] =
      (o.quality q, [Call.cjxlQuality q]) := by
  cases hq : o.quality q <;>
    simp [run_strategies, run_strategy, strategy_call, hq]

theorem run_strategies_jpeg90 (o : Oracle) (q : Nat) :
    run_strategies o q [Strategy.losslessTranscode, Strategy.qualityReencode] =
      match o.lossless with
      | some d => (some d, [Call.cjxlLossless])
      | none => (o.quality q, [Call.cjxlLossless, Call.cjxlQuality q]) := by
  cases hl : o.lossless <;> cases hq : o.quality q <;>
    simp [run_strategies, run_strategy, strategy_call, hl, hq]

theorem c4_strategy_selection (o : Oracle) (ext : String) (q : Nat)
    (_himg : ext ∈ IMAGE_EXTS) :
    primary_attempt o (heicExts.contains ext) (jpegExts.contains ext) q =
      run_strategies o q (strategySpecSelector (classOf ext) q) := by
  unfold primary_attempt classOf strategySpecSelector
  by_cases hh : heicExts.contains ext = true
  · rw [if_pos hh, if_pos hh]
    dsimp only
    exact (run_strategies_fallback o q).symm
  · rw [if_neg hh, if_neg hh]
    by_cases hj : jpegExts.contains ext = true
    · rw [if_pos hj, if_pos hj]
      dsimp only
      by_cases h90 : q = 90
      · rw [if_pos h90, if_pos h90]
        exact (run_strategies_jpeg90 o q).symm
      · rw [if_neg h90, if_neg h90]
        exact (run_strategies_quality o q).symm
    · rw [if_neg hj, if_neg hj]
      dsimp only
      exact (run_strategies_quality o q).symm

/-- Witness for C4 at a concrete input: the `.heic` extension at
quality 90. -/
theorem c4_strategy_selection_witness :
    primary_attempt oSmallQuality (heicExts.contains ".heic")
        (jpegExts.contains ".heic") 90 =
      run_strategies oSmallQuality 90 (strategySpecSelector (classOf ".heic") 90) :=
  c4_strategy_selection oSmallQuality ".heic" 90 (by decide)

/-- C5: when the loop ends with a final encoded payload and the payload
is strictly smaller than the source or `forceOutput` is set, the payload
bytes are written to the destination path, the outcome is Persisted
(`[OK]`, when smaller) or PersistedForced (`[FORCED]`, when the final
size is at least the source size but force is set), the persisted bytes
are exactly the last attempted encode's payload (the trace ends with
that attempt), and the metadata-propagation collaborator is triggered. -/
theorem c5_persist (o : Oracle) (a : Args) (ext : String) (src_bytes : Bytes)
    (fs : FS) (fuel : Nat) (data : Bytes) (qf : Nat)
    (hfs : fs.outJxl = none)
    (hloop : (search_loop o (heicExts.contains ext) (jpegExts.contains ext)
        src_bytes.length (min_quality a) fuel 90).2 = LoopOut.found data qf)
    (hsave : data.length < src_bytes.length ∨ a.force_jxl = true) :
    (process_file o a ext src_bytes fs fuel).fs.outJxl = some data ∧
    (process_file o a ext src_bytes fs fuel).metaCopied = true ∧
    ((process_file o a ext src_bytes fs fuel).decision =
      if data.length < src_bytes.length then Decision.ok else Decision.forced) ∧
    ∃ pre cs, (process_file o a ext src_bytes fs fuel).trace =
      pre ++ [⟨qf, cs, some data⟩] := by
  have hne := search_loop_found_ne o (heicExts.contains ext)
    (jpegExts.contains ext) src_bytes.length (min_quality a) data qf fuel 90 hloop
  have hlast := search_loop_found_last o (heicExts.contains ext)
    (jpegExts.contains ext) src_bytes.length (min_quality a) data qf fuel 90 hloop
  have hpf : process_file o a ext src_bytes fs fuel =
      process_body o a ext src_bytes fs fuel := by
    unfold process_file
    rw [hfs]
    rfl
  rw [hpf]
  simp only [process_body]
  rw [hloop]
  dsimp only
  rw [if_pos hne, if_pos hsave]
  by_cases hge : src_bytes.length ≤ data.length
  · rw [if_pos hge]
    exact ⟨rfl, rfl, by rw [if_neg (by omega)], hlast⟩
  · rw [if_neg hge]
    exact ⟨rfl, rfl, by rw [if_pos (by omega)], hlast⟩

/-- Witness for C5 at a concrete input: a 3-byte encode of a 10-byte
source is persisted with outcome `[OK]`. -/
theorem c5_persist_witness :
    (process_file oSmallQuality argsDefault ".png" (List.replicate 10 0)
      ⟨none, none⟩ 1).fs.outJxl = some [1, 2, 3] ∧
    (process_file oSmallQuality argsDefault ".png" (List.replicate 10 0)
      ⟨none, none⟩ 1).metaCopied = true ∧
    ((process_file oSmallQuality argsDefault ".png" (List.replicate 10 0)
      ⟨none, none⟩ 1).decision =
      if ([1, 2, 3] : Bytes).length < (List.replicate 10 0 : Bytes).length then
        Decision.ok
      else Decision.forced) ∧
    ∃ pre cs, (process_file oSmallQuality argsDefault ".png"
      (List.replicate 10 0) ⟨none, none⟩ 1).trace =
        pre ++ [⟨90, cs, some [1, 2, 3]⟩] :=
  c5_persist oSmallQuality argsDefault ".png" (List.replicate 10 0)
    ⟨none, none⟩ 1 [1, 2, 3] 90 rfl (by decide) (Or.inl (by decide))

/-- C6: when the final encoded payload is at least as large as the
source (equality counts as not smaller) and force is not set, the
encoded bytes are discarded (the `.jxl` destination is never written),
the original is retained verbatim at the corresponding destination path,
and the outcome is Retained. -/
theorem c6_retain (o : Oracle) (a : Args) (ext : String) (src_bytes : Bytes)
    (fs : FS) (fuel : Nat) (data : Bytes) (qf : Nat)
    (hfs : fs.outJxl = none) (hfso : fs.outOrig = none)
    (hloop : (search_loop o (heicExts.contains ext) (jpegExts.contains ext)
        src_bytes.length (min_quality a) fuel 90).2 = LoopOut.found data qf)
    (hge : src_bytes.length ≤ data.length)
    (hforce : a.force_jxl = false) :
    (process_file o a ext src_bytes fs fuel).fs.outJxl = none ∧
    (process_file o a ext src_bytes fs fuel).fs.outOrig = some src_bytes ∧
    (process_file o a ext src_bytes fs fuel).decision = Decision.retained ∧
    (process_file o a ext src_bytes fs fuel).metaCopied = false ∧
    Ev.copyMsg ∈ (process_file o a ext src_bytes fs fuel).events := by
  have hne := search_loop_found_ne o (heicExts.contains ext)
    (jpegExts.contains ext) src_bytes.length (min_quality a) data qf fuel 90 hloop
  have hpf : process_file o a ext src_bytes fs fuel =
      process_body o a ext src_bytes fs fuel := by
    unfold process_file
    rw [hfs]
    rfl
  rw [hpf]
  simp only [process_body]
  rw [hloop]
  dsimp only
  rw [if_pos hne, if_neg (by rw [hforce]; simp; omega)]
  simp only [copy_original]
  rw [hfso]
  exact ⟨hfs, by trivial, by trivial, by trivial, by simp⟩

/-- Witness for C6 at a concrete input: a 2-byte encode of a 1-byte
source with no force flag is discarded and the original retained. -/
theorem c6_retain_witness :
    (process_file oBigQuality argsDefault ".png" [0] ⟨none, none⟩ 1).fs.outJxl =
      none ∧
    (process_file oBigQuality argsDefault ".png" [0] ⟨none, none⟩ 1).fs.outOrig =
      some [0] ∧
    (process_file oBigQuality argsDefault ".png" [0] ⟨none, none⟩ 1).decision =
      Decision.retained ∧
    (process_file oBigQuality argsDefault ".png" [0] ⟨none, none⟩ 1).metaCopied =
      false ∧
    Ev.copyMsg ∈ (process_file oBigQuality argsDefault ".png" [0]
      ⟨none, none⟩ 1).events :=
  c6_retain oBigQuality argsDefault ".png" [0] ⟨none, none⟩ 1 [9, 9] 90
    rfl rfl (by decide) (by decide) rfl

/-- C7: when at some quality level every primary strategy fails and the
Pillow fallback fails too, the file stops immediately with a Failed
outcome: the failing iteration is the last one in the trace (every
earlier iteration produced a payload), the `.jxl` destination is never
written, metadata propagation is not triggered, and the original is
retained unless `forceOutput` is set, in which case no retention copy is
made either. -/
theorem c7_hard_failure (o : Oracle) (a : Args) (ext : String)
    (src_bytes : Bytes) (fs : FS) (fuel : Nat)
    (hfs : fs.outJxl = none)
    (hloop : (search_loop o (heicExts.contains ext) (jpegExts.contains ext)
        src_bytes.length (min_quality a) fuel 90).2 = LoopOut.hardFail) :
    (process_file o a ext src_bytes fs fuel).decision = Decision.failed ∧
    (process_file o a ext src_bytes fs fuel).fs.outJxl = none ∧
    (process_file o a ext src_bytes fs fuel).metaCopied = false ∧
    (a.force_jxl = false → fs.outOrig = none →
      (process_file o a ext src_bytes fs fuel).fs.outOrig = some src_bytes) ∧
    (a.force_jxl = true → (process_file o a ext src_bytes fs fuel).fs = fs) ∧
    ∃ pre qf cs, (process_file o a ext src_bytes fs fuel).trace =
      pre ++ [⟨qf, cs, none⟩] ∧ ∀ it ∈ pre, it.payload ≠ none := by
  have hlast := search_loop_hardFail_last o (heicExts.contains ext)
    (jpegExts.contains ext) src_bytes.length (min_quality a) fuel 90 hloop
  have hpf : process_file o a ext src_bytes fs fuel =
      process_body o a ext src_bytes fs fuel := by
    unfold process_file
    rw [hfs]
    rfl
  rw [hpf]
  simp only [process_body]
  rw [hloop]
  dsimp only
  by_cases hforce : a.force_jxl = true
  · rw [if_pos hforce]
    refine ⟨by trivial, hfs, by trivial, ?_, fun _ => rfl, hlast⟩
    intro hc
    rw [hforce] at hc
    exact absurd hc (by simp)
  · rw [if_neg hforce]
    simp only [copy_original]
    refine ⟨by trivial, ?_, by trivial, ?_, ?_, hlast⟩
    · by_cases ho : fs.outOrig.isSome = true
      · rw [if_pos ho]; exact hfs
      · rw [if_neg ho]; exact hfs
    · intro _ hfso
      rw [hfso]
      rfl
    · intro hc
      exact absurd hc hforce

/-- Witness for C7 at a concrete input: every invocation fails for a
1-byte `.png` source; the file fails immediately and the original is
retained. -/
theorem c7_hard_failure_witness :
    (process_file oAllFail argsDefault ".png" [0] ⟨none, none⟩ 1).decision =
      Decision.failed ∧
    (process_file oAllFail argsDefault ".png" [0] ⟨none, none⟩ 1).fs.outJxl =
      none ∧
    (process_file oAllFail argsDefault ".png" [0] ⟨none, none⟩ 1).metaCopied =
      false ∧
    (argsDefault.force_jxl = false → (⟨none, none⟩ : FS).outOrig = none →
      (process_file oAllFail argsDefault ".png" [0] ⟨none, none⟩ 1).fs.outOrig =
        some [0]) ∧
    (argsDefault.force_jxl = true →
      (process_file oAllFail argsDefault ".png" [0] ⟨none, none⟩ 1).fs =
        ⟨none, none⟩) ∧
    ∃ pre qf cs, (process_file oAllFail argsDefault ".png" [0]
      ⟨none, none⟩ 1).trace = pre ++ [⟨qf, cs, none⟩] ∧
      ∀ it ∈ pre, it.payload ≠ none :=
  c7_hard_failure oAllFail argsDefault ".png" [0] ⟨none, none⟩ 1 rfl (by decide)

/-- C8: when the destination path already exists and the AlwaysSkip
policy is configured, processing terminates in the Skip state before any
encoding work: the whole result is the skip record, with zero encoder
invocations, an empty trace, no metadata propagation, and the
destination tree unchanged. -/
theorem c8_skip (o : Oracle) (a : Args) (ext : String) (src_bytes : Bytes)
    (fs : FS) (fuel : Nat) (b : Bytes)
    (hfs : fs.outJxl = some b) (hskip : a.skip = true) :
    process_file o a ext src_bytes fs fuel =
      ⟨Decision.skip, fs, [], false, [], [Ev.skipMsg]⟩ := by
  unfold process_file
  rw [hfs]
  simp [hskip]

/-- Witness for C8 at a concrete input: an existing 1-byte destination
under the skip policy. -/
theorem c8_skip_witness :
    process_file oSmallQuality argsSkip ".png" [0] ⟨some [5], none⟩ 3 =
      ⟨Decision.skip, ⟨some [5], none⟩, [], false, [], [Ev.skipMsg]⟩ :=
  c8_skip oSmallQuality argsSkip ".png" [0] ⟨some [5], none⟩ 3 [5] rfl rfl

/-- C9: the original-retention copy never overwrites an existing file:
when a file already exists at the computed destination path its contents
are left unchanged, while the `[COPY]` outcome is still reported. -/
theorem c9_no_overwrite (fs : FS) (src_bytes b : Bytes)
    (h : fs.outOrig = some b) :
    (copy_original fs src_bytes).1.outOrig = some b ∧
    Ev.copyMsg ∈ (copy_original fs src_bytes).2 := by
  unfold copy_original
  rw [h]
  exact ⟨h, by simp⟩

/-- Witness for C9 at a concrete input: an existing 1-byte retention
target is preserved while copying a different original. -/
theorem c9_no_overwrite_witness :
    (copy_original ⟨none, some [7]⟩ [1]).1.outOrig = some [7] ∧
    Ev.copyMsg ∈ (copy_original ⟨none, some [7]⟩ [1]).2 :=
  c9_no_overwrite ⟨none, some [7]⟩ [1] [7] rfl

/-- C10: for a HEIC/HEIF input the primary strategy is the very Pillow
decode + re-encode routine that also serves as the universal fallback,
invoked with the same input and quality; when it fails at a quality
level it is invoked exactly twice (primary, then fallback) and the file
is recorded as Failed. -/
theorem c10_heic_double_pillow (o : Oracle) (a : Args) (ext : String)
    (src_bytes : Bytes) (fs : FS) (fuel q : Nat)
    (hext : heicExts.contains ext = true)
    (hq : o.pillow q = none) (h90 : o.pillow 90 = none)
    (hfs : fs.outJxl = none) (hfuel : 1 ≤ fuel) :
    primary_attempt o (heicExts.contains ext) (jpegExts.contains ext) q =
      (o.pillow q, [Call.pillowCall q]) ∧
    attempt_body o (heicExts.contains ext) (jpegExts.contains ext) q =
      (none, [Call.pillowCall q, Call.pillowCall q]) ∧
    (process_file o a ext src_bytes fs fuel).decision = Decision.failed ∧
    (process_file o a ext src_bytes fs fuel).calls =
      [Call.pillowCall 90, Call.pillowCall 90] := by
  have hprim : ∀ q2, primary_attempt o (heicExts.contains ext)
      (jpegExts.contains ext) q2 = (o.pillow q2, [Call.pillowCall q2]) := by
    intro q2
    unfold primary_attempt
    rw [if_pos hext]
  have hbody : ∀ q2, o.pillow q2 = none →
      attempt_body o (heicExts.contains ext) (jpegExts.contains ext) q2 =
        (none, [Call.pillowCall q2, Call.pillowCall q2]) := by
    intro q2 hq2
    unfold attempt_body
    rw [hprim q2, hq2]
    rfl
  obtain ⟨f, rfl⟩ : ∃ f, fuel = f + 1 := ⟨fuel - 1, by omega⟩
  have hpf : process_file o a ext src_bytes fs (f + 1) =
      process_body o a ext src_bytes fs (f + 1) := by
    unfold process_file
    rw [hfs]
    rfl
  have hsl := search_loop_succ_none o (heicExts.contains ext)
    (jpegExts.contains ext) src_bytes.length (min_quality a) f 90
    [Call.pillowCall 90, Call.pillowCall 90] (hbody 90 h90)
  refine ⟨hprim q, hbody q hq, ?_, ?_⟩
  · rw [hpf]
    simp only [process_body]
    rw [hsl]
    dsimp only
    by_cases hforce : a.force_jxl = true
    · rw [if_pos hforce]
    · rw [if_neg hforce]
  · rw [hpf]
    simp only [process_body]
    rw [hsl]
    dsimp only
    by_cases hforce : a.force_jxl = true
    · rw [if_pos hforce]; rfl
    · rw [if_neg hforce]; rfl

/-- Witness for C10 at a concrete input: a `.heic` file whose Pillow
routine always fails; the pillow call appears exactly twice and the file
fails. -/
theorem c10_heic_double_pillow_witness :
    primary_attempt oAllFail (heicExts.contains ".heic")
        (jpegExts.contains ".heic") 85 =
      (oAllFail.pillow 85, [Call.pillowCall 85]) ∧
    attempt_body oAllFail (heicExts.contains ".heic")
        (jpegExts.contains ".heic") 85 =
      (none, [Call.pillowCall 85, Call.pillowCall 85]) ∧
    (process_file oAllFail argsDefault ".heic" [0] ⟨none, none⟩ 1).decision =
      Decision.failed ∧
    (process_file oAllFail argsDefault ".heic" [0] ⟨none, none⟩ 1).calls =
      [Call.pillowCall 90, Call.pillowCall 90] :=
  c10_heic_double_pillow oAllFail argsDefault ".heic" [0] ⟨none, none⟩ 1 85
    (by decide) rfl rfl rfl (by decide)

end ConvertToJxl
